import Mathlib

/-!
Verification of the directive-validation subsystem of apollo-rs
(`crates/apollo-compiler/src/validation/directive.rs`).

The Rust module is shallowly embedded below.  Types and helpers that live
outside the shown file (the AST and schema object model, `RecursionGuard`,
`CycleError`, `SourceSpan`, the external argument/value/variable validators)
are modelled from the specification, as noted on each definition.
Everything defined from `directive.rs` itself follows that file line by line.
-/

/-- Modelled from the spec: identifiers (directive, type, argument names). -/
abbrev Name := String

/-- Modelled from the spec: a source span, kept abstract as an opaque id. -/
abbrev Span := Nat

/-- Modelled from the spec: the syntactic attachment-location tag
(`ast::DirectiveLocation`), kept abstract as a name. -/
abbrev DirectiveLocation := String

/-- Modelled from the spec: source-span recomposition
(`SourceSpan::recompose`, external to the shown core); combines a node's
span with its name's span, here abstractly preferring the node's span. -/
def SourceSpan.recompose (a b : Option Span) : Option Span :=
  match a with
  | some x => some x
  | none => b

/-- Modelled from the spec: argument values.  The spec distinguishes the
literal `null`, variable references, and other literals. -/
inductive Value where
  | null
  | variable (name : Name)
  | lit (s : String)
deriving DecidableEq

/-- Embeds `ast::Value::is_null` (true exactly on the `null` literal). -/
def Value.is_null : Value → Bool
  | .null => true
  | _ => false

/-- Modelled from the spec: a type reference — a named type possibly
wrapped in list and non-null markers. -/
inductive Ty where
  | named (name : Name)
  | list (ofType : Ty)
  | nonNull (ofType : Ty)
deriving DecidableEq

/-- Embeds `ast::Type::inner_named_type`: strip all wrappers. -/
def Ty.inner_named_type : Ty → Name
  | .named n => n
  | .list t => t.inner_named_type
  | .nonNull t => t.inner_named_type

/-- Embeds `ast::Type::is_non_null`: the outermost wrapper is non-null. -/
def Ty.is_non_null : Ty → Bool
  | .nonNull _ => true
  | _ => false

/-- Modelled from the spec: one supplied argument of a directive
application: name, value, source location. -/
structure Argument where
  name : Name
  value : Value
  loc : Option Span
deriving DecidableEq

/-- Modelled from the spec: a directive application — name, ordered
argument list, source locations of the node and of its name. -/
structure Directive where
  name : Name
  name_loc : Option Span
  arguments : List Argument
  loc : Option Span
deriving DecidableEq

/-- Modelled from the spec: an argument definition (input value):
name, type reference, optional default, its own directives, location. -/
structure InputValueDefinition where
  name : Name
  ty : Ty
  default_value : Option Value
  directives : List Directive
  loc : Option Span
deriving DecidableEq

/-- Embeds `InputValueDefinition::is_required`: non-null type and no
default value. -/
def InputValueDefinition.is_required (iv : InputValueDefinition) : Bool :=
  iv.ty.is_non_null && iv.default_value.isNone

/-- Modelled from the spec: an enum value owns its attached directives. -/
structure EnumValueDefinition where
  directives : List Directive
deriving DecidableEq

/-- Modelled from the spec: the parts of `schema::ExtendedType` read by the
cycle detector — each variant's own directives, plus enum values for
`Enum` and fields for `InputObject`. -/
inductive ExtendedType where
  | scalar (directives : List Directive)
  | object (directives : List Directive)
  | interface (directives : List Directive)
  | union (directives : List Directive)
  | enum (directives : List Directive) (values : List EnumValueDefinition)
  | inputObject (directives : List Directive) (fields : List InputValueDefinition)
deriving DecidableEq

/-- Modelled from the spec: a directive definition — name, ordered
argument definitions, repeatability, allowed locations, locations of the
node and of its name. -/
structure DirectiveDefinition where
  name : Name
  name_loc : Option Span
  arguments : List InputValueDefinition
  repeatable : Bool
  locations : List DirectiveLocation
  loc : Option Span
deriving DecidableEq

/-- Modelled from the spec: a variable definition enclosing the
application site; only passed through to the external validators here. -/
structure VariableDefinition where
  name : Name
  ty : Ty
deriving DecidableEq

/-- Modelled from the spec: the read-only schema — a type map and a
directive-definition map, both per-name. -/
structure Schema where
  types : List (Name × ExtendedType)
  directive_definitions : List (Name × DirectiveDefinition)
deriving DecidableEq

/-- Name-keyed map lookup (embeds `IndexMap::get` on the schema maps). -/
def mapGet {α : Type} (m : List (Name × α)) (k : Name) : Option α :=
  match m with
  | [] => none
  | (key, v) :: rest => if key = k then some v else mapGet rest k

/-- Modelled from the spec: `CycleError` — a confirmed cycle carrying its
ordered evidence trace, or the depth bound being hit. -/
inductive CycleError where
  | Recursed (trace : List Directive)
  | Limit
deriving DecidableEq

/-- Modelled from the spec: `CycleError::trace` appends one application to
the evidence as the error propagates outward through a stack frame;
the depth-limit error is unchanged. -/
def CycleError.trace (error : CycleError) (directive : Directive) : CycleError :=
  match error with
  | .Recursed t => .Recursed (t ++ [directive])
  | .Limit => .Limit

/-- Result of one cycle-search call (`Result<(), CycleError>`). -/
abbrev CycleResult := Except CycleError Unit

deriving instance DecidableEq for Except

/-- Modelled from the spec: `RecursionGuard::push` — extend the current
path by one name, or fail when the path would exceed the depth bound.
The guard's scoping (pop on release) is functional here: callers keep
using their own unextended path. -/
def RecursionGuard.push (limit : Nat) (seen : List Name) (name : Name) : Option (List Name) :=
  if seen.length + 1 > limit then none else some (seen ++ [name])

/-- Embeds the `FindRecursiveDirective` context: the schema together with
the configured recursion-depth bound of its guard. -/
structure FindRecursiveDirective where
  schema : Schema
  limit : Nat

/- The mutually recursive cycle search, one Lean function per Rust method
plus list-iteration helpers for the `for` loops.  The Rust recursion is
not structurally bounded (a cyclic type graph diverges), so every
function consumes fuel; `none` means the fuel ran out. -/

mutual

/-- Embeds `FindRecursiveDirective::type_definition` (directive.rs:23-56). -/
def FindRecursiveDirective.type_definition (ctx : FindRecursiveDirective) (fuel : Nat)
    (seen : List Name) (defn : ExtendedType) : Option CycleResult :=
  match fuel with
  | 0 => none
  | fuel + 1 =>
    match defn with
    | .scalar directives => ctx.directives fuel seen directives
    | .object directives => ctx.directives fuel seen directives
    | .interface directives => ctx.directives fuel seen directives
    | .union directives => ctx.directives fuel seen directives
    | .enum directives values =>
      match ctx.directives fuel seen directives with
      | some (.ok _) => ctx.enum_values fuel seen values
      | r => r
    | .inputObject directives fields =>
      match ctx.directives fuel seen directives with
      | some (.ok _) => ctx.input_values fuel seen fields
      | r => r

/-- Embeds the `for input_value in ...` loops over input-value lists
(directive.rs:49-51 and 124-126). -/
def FindRecursiveDirective.input_values (ctx : FindRecursiveDirective) (fuel : Nat)
    (seen : List Name) (fields : List InputValueDefinition) : Option CycleResult :=
  match fuel with
  | 0 => none
  | fuel + 1 =>
    match fields with
    | [] => some (.ok ())
    | f :: rest =>
      match ctx.input_value fuel seen f with
      | some (.ok _) => ctx.input_values fuel seen rest
      | r => r

/-- Embeds `FindRecursiveDirective::input_value` (directive.rs:58-73). -/
def FindRecursiveDirective.input_value (ctx : FindRecursiveDirective) (fuel : Nat)
    (seen : List Name) (input_value : InputValueDefinition) : Option CycleResult :=
  match fuel with
  | 0 => none
  | fuel + 1 =>
    match ctx.directives fuel seen input_value.directives with
    | some (.ok _) =>
      match mapGet ctx.schema.types input_value.ty.inner_named_type with
      | some type_def => ctx.type_definition fuel seen type_def
      | none => some (.ok ())
    | r => r

/-- Embeds the `for enum_value in ...` loop (directive.rs:43-45). -/
def FindRecursiveDirective.enum_values (ctx : FindRecursiveDirective) (fuel : Nat)
    (seen : List Name) (values : List EnumValueDefinition) : Option CycleResult :=
  match fuel with
  | 0 => none
  | fuel + 1 =>
    match values with
    | [] => some (.ok ())
    | v :: rest =>
      match ctx.enum_value fuel seen v with
      | some (.ok _) => ctx.enum_values fuel seen rest
      | r => r

/-- Embeds `FindRecursiveDirective::enum_value` (directive.rs:75-85). -/
def FindRecursiveDirective.enum_value (ctx : FindRecursiveDirective) (fuel : Nat)
    (seen : List Name) (enum_value : EnumValueDefinition) : Option CycleResult :=
  match fuel with
  | 0 => none
  | fuel + 1 => ctx.directives fuel seen enum_value.directives

/-- Embeds `FindRecursiveDirective::directives` (directive.rs:87-96). -/
def FindRecursiveDirective.directives (ctx : FindRecursiveDirective) (fuel : Nat)
    (seen : List Name) (directives : List Directive) : Option CycleResult :=
  match fuel with
  | 0 => none
  | fuel + 1 =>
    match directives with
    | [] => some (.ok ())
    | d :: rest =>
      match ctx.directive fuel seen d with
      | some (.ok _) => ctx.directives fuel seen rest
      | r => r

/-- Embeds `FindRecursiveDirective::directive` (directive.rs:98-117):
an unseen defined name is pushed and its definition entered, wrapping a
propagating error with one more trace entry; a seen name that is the
root fails with `Recursed`; any other case succeeds. -/
def FindRecursiveDirective.directive (ctx : FindRecursiveDirective) (fuel : Nat)
    (seen : List Name) (directive : Directive) : Option CycleResult :=
  match fuel with
  | 0 => none
  | fuel + 1 =>
    if ¬ directive.name ∈ seen then
      match mapGet ctx.schema.directive_definitions directive.name with
      | some defn =>
        match RecursionGuard.push ctx.limit seen directive.name with
        | none => some (.error .Limit)
        | some seen2 =>
          match ctx.directive_definition fuel seen2 defn with
          | none => none
          | some (.ok _) => some (.ok ())
          | some (.error e) => some (.error (e.trace directive))
      | none => some (.ok ())
    else if seen.head? = some directive.name then
      some (.error (.Recursed [directive]))
    else
      some (.ok ())

/-- Embeds `FindRecursiveDirective::directive_definition`
(directive.rs:119-129). -/
def FindRecursiveDirective.directive_definition (ctx : FindRecursiveDirective) (fuel : Nat)
    (seen : List Name) (defn : DirectiveDefinition) : Option CycleResult :=
  match fuel with
  | 0 => none
  | fuel + 1 => ctx.input_values fuel seen defn.arguments

end

/-- Embeds `FindRecursiveDirective::check` (directive.rs:131-138): run the
search from a definition with a fresh guard rooted at its name. -/
def FindRecursiveDirective.check (schema : Schema) (limit : Nat) (fuel : Nat)
    (directive_def : DirectiveDefinition) : Option CycleResult :=
  FindRecursiveDirective.directive_definition ⟨schema, limit⟩ fuel
    [directive_def.name] directive_def

/-- Modelled from the spec: the kind-tagged diagnostic payloads produced by
this module (`DiagnosticData`), plus an `external` tag standing for
diagnostics appended by the black-box collaborator validators. -/
inductive DiagnosticData where
  | RecursiveDirectiveDefinition (name : Name) (trace : List Directive)
  | DeeplyNestedType (name : Name) (describe_type : String)
  | UniqueDirective (name : Name) (original_application : Option Span)
  | UnsupportedLocation (name : Name) (location : DirectiveLocation)
      (valid_locations : List DirectiveLocation) (definition_location : Option Span)
  | UndefinedArgument (name : Name) (coordinate : Name) (definition_location : Option Span)
  | RequiredArgument (name : Name) (expected_type : Ty) (coordinate : Name × Name)
      (definition_location : Option Span)
  | UndefinedDirective (name : Name)
  | external (tag : String)
deriving DecidableEq

/-- Modelled from the spec: one entry of the ordered diagnostic sink — a
source span plus a kind-tagged payload.  The sink itself is a list and
`push` is appending. -/
structure Diagnostic where
  loc : Option Span
  data : DiagnosticData
deriving DecidableEq

/-- Recognizes duplicate-non-repeatable-directive diagnostics. -/
def Diagnostic.isUniqueDirective (d : Diagnostic) : Bool :=
  match d.data with
  | .UniqueDirective _ _ => true
  | _ => false

/-- Recognizes unsupported-location diagnostics. -/
def Diagnostic.isUnsupportedLocation (d : Diagnostic) : Bool :=
  match d.data with
  | .UnsupportedLocation _ _ _ _ => true
  | _ => false

/-- Recognizes missing-required-argument diagnostics for one
(directive, argument) coordinate. -/
def Diagnostic.isRequiredArgumentFor (dir arg : Name) (d : Diagnostic) : Bool :=
  match d.data with
  | .RequiredArgument _ _ c _ => c.1 == dir && c.2 == arg
  | _ => false

/-- Modelled from the spec: the black-box collaborator validators consumed
by this module.  Each returns the diagnostics it appends; the
variable-usage validator additionally reports success or failure, which
gates the value validator.  The argument-definition validator's mutable
built-in-scalar bookkeeping is external state not modelled here. -/
structure Externals where
  validate_arguments : List Argument → List Diagnostic
  validate_variable_usage :
    InputValueDefinition → List VariableDefinition → Argument → List Diagnostic × Bool
  validate_values : Schema → Ty → Argument → List VariableDefinition → List Diagnostic
  validate_argument_definitions :
    List InputValueDefinition → DirectiveLocation → List Diagnostic

/-- Silent collaborators: every external validator appends nothing and
variable-usage validation succeeds. -/
def noExt : Externals :=
  ⟨fun _ => [], fun _ _ _ => ([], true), fun _ _ _ _ => [], fun _ _ => []⟩

/-- A marker diagnostic used to observe whether the external value
validator was invoked. -/
def probeDiag : Diagnostic := ⟨none, .external "value-validation"⟩

/-- Collaborators where variable-usage validation succeeds and the value
validator emits the probe marker. -/
def extProbeOk : Externals :=
  ⟨fun _ => [], fun _ _ _ => ([], true), fun _ _ _ _ => [probeDiag], fun _ _ => []⟩

/-- Collaborators where variable-usage validation fails and the value
validator emits the probe marker. -/
def extProbeFail : Externals :=
  ⟨fun _ => [], fun _ _ _ => ([], false), fun _ _ _ _ => [probeDiag], fun _ _ => []⟩

/-- The `ast::DirectiveLocation::ArgumentDefinition` tag passed by
`validate_directive_definition` to the argument-definition validator. -/
def argumentDefinitionLocation : DirectiveLocation := "ARGUMENT_DEFINITION"

/-- Embeds `validate_directive_definition` (directive.rs:141-180): run the
external argument-definition validator, then map the cycle-search outcome
to diagnostics.  Appends to the given sink; `none` only when the
cycle-search fuel runs out (the Rust original would not have returned). -/
def validate_directive_definition (ext : Externals) (schema : Schema) (limit fuel : Nat)
    (defn : DirectiveDefinition) (diagnostics : List Diagnostic) : Option (List Diagnostic) :=
  let diagnostics := diagnostics ++
    ext.validate_argument_definitions defn.arguments argumentDefinitionLocation
  let head_location := SourceSpan.recompose defn.loc defn.name_loc
  match FindRecursiveDirective.check schema limit fuel defn with
  | some (.ok _) => some diagnostics
  | some (.error (.Recursed trace)) =>
    some (diagnostics ++ [⟨head_location, .RecursiveDirectiveDefinition defn.name trace⟩])
  | some (.error .Limit) =>
    some (diagnostics ++ [⟨head_location, .DeeplyNestedType defn.name "directive"⟩])
  | none => none

/-- Embeds the per-supplied-argument body of `validate_directives`
(directive.rs:246-285): a matched argument runs variable-usage validation
and, only on its success, value validation; an unmatched argument yields
an undefined-argument diagnostic. -/
def validate_supplied_argument (ext : Externals) (schema : Schema)
    (directive_definition : DirectiveDefinition) (var_defs : List VariableDefinition)
    (dir_name : Name) (loc : Option Span) (argument : Argument) : List Diagnostic :=
  match directive_definition.arguments.find? (fun val => val.name == argument.name) with
  | some input_value =>
    let usage := ext.validate_variable_usage input_value var_defs argument
    usage.1 ++
      (if usage.2 then ext.validate_values schema input_value.ty argument var_defs else [])
  | none => [⟨argument.loc, .UndefinedArgument argument.name dir_name loc⟩]

/-- Embeds the per-defined-argument body of `validate_directives`
(directive.rs:286-314): a required argument definition that is omitted or
supplied as the literal `null` yields a required-argument diagnostic. -/
def validate_defined_argument (directive_definition : DirectiveDefinition)
    (dir : Directive) (arg_def : InputValueDefinition) : List Diagnostic :=
  let arg_value := dir.arguments.findSome?
    (fun arg => if arg.name == arg_def.name then some arg.value else none)
  let is_null :=
    match arg_value with
    | none => true
    | some value => value.is_null
  if arg_def.is_required && is_null then
    [⟨dir.loc, .RequiredArgument arg_def.name arg_def.ty
        (directive_definition.name, arg_def.name) arg_def.loc⟩]
  else []

/-- Embeds the definition-dependent checks of `validate_directives`
(directive.rs:231-314): the location check followed by the
per-supplied-argument and per-defined-argument loops.  List membership on
`locations` embeds the `HashSet` membership test built from that list. -/
def validate_known_directive (ext : Externals) (schema : Schema)
    (directive_definition : DirectiveDefinition) (dir : Directive)
    (dir_loc : DirectiveLocation) (var_defs : List VariableDefinition)
    (loc : Option Span) : List Diagnostic :=
  (if !(directive_definition.locations.contains dir_loc) then
    [⟨loc, .UnsupportedLocation dir.name dir_loc directive_definition.locations
        directive_definition.loc⟩]
  else []) ++
  (dir.arguments.flatMap
    (validate_supplied_argument ext schema directive_definition var_defs dir.name loc)) ++
  (directive_definition.arguments.flatMap (validate_defined_argument directive_definition dir))

/-- Embeds one iteration of the `for dir in dirs` loop of
`validate_directives` (directive.rs:203-321): external argument
validation, the uniqueness check against the names seen so far in this
application list, then either the definition-dependent checks or an
undefined-directive diagnostic.  Returns the updated seen-map and the
diagnostics appended by this iteration, in push order. -/
def validate_one_directive (ext : Externals) (schema : Option Schema)
    (dir_loc : DirectiveLocation) (var_defs : List VariableDefinition)
    (seen_directives : List (Name × Option Span)) (dir : Directive) :
    List (Name × Option Span) × List Diagnostic :=
  let name := dir.name
  let loc := dir.loc
  let directive_definition :=
    schema.bind fun s => (mapGet s.directive_definitions name).map fun d => (s, d)
  let argDiags := ext.validate_arguments dir.arguments
  let seenStep : List (Name × Option Span) × List Diagnostic :=
    match mapGet seen_directives name with
    | some original_loc =>
      let is_repeatable := (directive_definition.map fun p => p.2.repeatable).getD true
      (seen_directives,
        if !is_repeatable then [⟨loc, .UniqueDirective name original_loc⟩] else [])
    | none =>
      (seen_directives ++ [(name, SourceSpan.recompose dir.loc dir.name_loc)], [])
  let mainDiags :=
    match directive_definition with
    | some (s, defn) => validate_known_directive ext s defn dir dir_loc var_defs loc
    | none => [⟨loc, .UndefinedDirective name⟩]
  (seenStep.1, argDiags ++ seenStep.2 ++ mainDiags)

/-- Embeds the `for dir in dirs` loop of `validate_directives`, threading
the seen-map and collecting appended diagnostics in order. -/
def validate_directives_go (ext : Externals) (schema : Option Schema)
    (dir_loc : DirectiveLocation) (var_defs : List VariableDefinition) :
    List (Name × Option Span) → List Directive → List Diagnostic
  | _, [] => []
  | seen, dir :: rest =>
    let step := validate_one_directive ext schema dir_loc var_defs seen dir
    step.2 ++ validate_directives_go ext schema dir_loc var_defs step.1 rest

/-- Embeds `validate_directives` (directive.rs:194-322): validate one
ordered application list at a single attachment point, starting from an
empty seen-map.  Returns the diagnostics it appends to the sink. -/
def validate_directives (ext : Externals) (schema : Option Schema)
    (dirs : List Directive) (dir_loc : DirectiveLocation)
    (var_defs : List VariableDefinition) : List Diagnostic :=
  validate_directives_go ext schema dir_loc var_defs [] dirs

/-- C1: at a directive application whose name is already on the current
path, the search stops with success when that name is not the root, and
fails with `Recursed` (trace seeded at the detection point) when it is
the root; a `Recursed` error propagating out of a definition descent is
extended by the entered application at that frame. -/
theorem C1_directive_cycle_step (ctx : FindRecursiveDirective) (fuel : Nat)
    (seen : List Name) (d : Directive) :
    (d.name ∈ seen → seen.head? ≠ some d.name →
      ctx.directive (fuel + 1) seen d = some (.ok ()))
    ∧ (d.name ∈ seen → seen.head? = some d.name →
      ctx.directive (fuel + 1) seen d = some (.error (.Recursed [d])))
    ∧ (∀ defn seen2 t, d.name ∉ seen →
      mapGet ctx.schema.directive_definitions d.name = some defn →
      RecursionGuard.push ctx.limit seen d.name = some seen2 →
      ctx.directive_definition fuel seen2 defn = some (.error (.Recursed t)) →
      ctx.directive (fuel + 1) seen d = some (.error (.Recursed (t ++ [d])))) := by
  refine ⟨fun h1 h2 => ?_, fun h1 h2 => ?_, fun defn seen2 t h1 h2 h3 h4 => ?_⟩
  · simp [FindRecursiveDirective.directive, h1, h2]
  · simp [FindRecursiveDirective.directive, h1, h2]
  · simp [FindRecursiveDirective.directive, h1, h2, h3, h4, CycleError.trace]

/-- The context used by the closed instantiation of C1: type `T` carries
an application of the root directive `r`, and `s` takes an argument of
type `T`. -/
def c1Ctx : FindRecursiveDirective :=
  ⟨⟨[("T", .scalar [⟨"r", none, [], none⟩])],
    [("r", ⟨"r", none, [⟨"x", .named "T", none, [], none⟩], false, [], none⟩),
     ("s", ⟨"s", none, [⟨"y", .named "T", none, [], none⟩], false, [], none⟩)]⟩, 5⟩

/-- Closed instantiation of `C1_directive_cycle_step` at concrete inputs
discharging each hypothesis. -/
theorem C1_witness :
    (FindRecursiveDirective.directive ⟨⟨[], []⟩, 5⟩ 3 ["r", "x"] ⟨"x", none, [], none⟩
      = some (.ok ()))
    ∧ (FindRecursiveDirective.directive ⟨⟨[], []⟩, 5⟩ 3 ["r", "x"] ⟨"r", none, [], none⟩
      = some (.error (.Recursed [⟨"r", none, [], none⟩])))
    ∧ (FindRecursiveDirective.directive c1Ctx 20 ["r"] ⟨"s", none, [], none⟩
      = some (.error (.Recursed [⟨"r", none, [], none⟩, ⟨"s", none, [], none⟩]))) := by
  refine ⟨?_, ?_, ?_⟩
  · exact (C1_directive_cycle_step _ 2 _ _).1 (by decide) (by decide)
  · exact (C1_directive_cycle_step _ 2 _ _).2.1 (by decide) (by decide)
  · exact (C1_directive_cycle_step c1Ctx 19 ["r"] ⟨"s", none, [], none⟩).2.2
      ⟨"s", none, [⟨"y", .named "T", none, [], none⟩], false, [], none⟩ ["r", "s"]
      [⟨"r", none, [], none⟩] (by decide) (by decide) (by decide) (by decide)

/-- C3: `validate_directive_definition` maps the cycle-search outcome to
diagnostics exactly: success appends nothing beyond the external
argument-definition diagnostics, `Recursed` appends one
recursive-directive-definition diagnostic carrying the name and trace,
and the depth-limit error appends one deeply-nested-type diagnostic
carrying the name. -/
theorem C3_outcome_to_diagnostics (ext : Externals) (schema : Schema)
    (limit fuel : Nat) (defn : DirectiveDefinition) (diagnostics : List Diagnostic) :
    (FindRecursiveDirective.check schema limit fuel defn = some (.ok ()) →
      validate_directive_definition ext schema limit fuel defn diagnostics =
        some (diagnostics ++
          ext.validate_argument_definitions defn.arguments argumentDefinitionLocation))
    ∧ (∀ trace,
      FindRecursiveDirective.check schema limit fuel defn = some (.error (.Recursed trace)) →
      validate_directive_definition ext schema limit fuel defn diagnostics =
        some ((diagnostics ++
          ext.validate_argument_definitions defn.arguments argumentDefinitionLocation) ++
          [⟨SourceSpan.recompose defn.loc defn.name_loc,
            .RecursiveDirectiveDefinition defn.name trace⟩]))
    ∧ (FindRecursiveDirective.check schema limit fuel defn = some (.error .Limit) →
      validate_directive_definition ext schema limit fuel defn diagnostics =
        some ((diagnostics ++
          ext.validate_argument_definitions defn.arguments argumentDefinitionLocation) ++
          [⟨SourceSpan.recompose defn.loc defn.name_loc,
            .DeeplyNestedType defn.name "directive"⟩])) := by
  refine ⟨fun h => ?_, fun trace h => ?_, fun h => ?_⟩ <;>
    simp [validate_directive_definition, h]

/-- Closed instantiation of `C3_outcome_to_diagnostics`: three concrete
schemas realizing the success, `Recursed`, and depth-limit outcomes. -/
theorem C3_witness :
    (validate_directive_definition noExt ⟨[], [("ok", ⟨"ok", none, [], false, [], none⟩)]⟩
      5 10 ⟨"ok", none, [], false, [], none⟩ [] = some [])
    ∧ (validate_directive_definition noExt
        ⟨[("In", .inputObject [] [⟨"v", .named "Int", none,
            [⟨"cyc", some 1, [], some 1⟩], some 2⟩])],
         [("cyc", ⟨"cyc", some 0, [⟨"x", .named "In", none, [], some 3⟩],
            false, [], some 0⟩)]⟩
        10 100 ⟨"cyc", some 0, [⟨"x", .named "In", none, [], some 3⟩], false, [], some 0⟩ []
      = some [⟨some 0, .RecursiveDirectiveDefinition "cyc" [⟨"cyc", some 1, [], some 1⟩]⟩])
    ∧ (validate_directive_definition noExt
        ⟨[("Ta", .scalar [⟨"b", none, [], none⟩])],
         [("a", ⟨"a", none, [⟨"x", .named "Ta", none, [], none⟩], false, [], none⟩),
          ("b", ⟨"b", none, [], false, [], none⟩)]⟩
        1 100 ⟨"a", none, [⟨"x", .named "Ta", none, [], none⟩], false, [], none⟩ []
      = some [⟨none, .DeeplyNestedType "a" "directive"⟩]) := by
  refine ⟨?_, ?_, ?_⟩
  · exact (C3_outcome_to_diagnostics noExt _ 5 10 _ []).1 (by decide)
  · exact (C3_outcome_to_diagnostics noExt _ 10 100 _ []).2.1 _ (by decide)
  · exact (C3_outcome_to_diagnostics noExt _ 1 100 _ []).2.2 (by decide)

/-- The directive application used as the concrete failing input for the
document-only mode check. -/
def docOnlyDirective : Directive := ⟨"foo", some 7, [], some 7⟩

/-- C4: evaluating the code at the failing input — with no schema, the
final `else` of `validate_directives` still pushes an undefined-directive
diagnostic for the application, contrary to the spec's document-only
mode. -/
theorem C4_no_schema_still_emits_undefined_directive :
    validate_directives noExt none [docOnlyDirective] "FIELD" [] =
      [⟨some 7, .UndefinedDirective "foo"⟩] := by decide

/-- C10: an application whose name has no entry in the directive-definition
map yields immediate success — nothing is pushed and no descent happens
(one unit of fuel suffices regardless of the schema); an argument whose
named type has no entry in the type map contributes only its own attached
directives, with no descent into any type definition. -/
theorem C10_unresolved_names_skipped (ctx : FindRecursiveDirective) (fuel : Nat)
    (seen : List Name) (d : Directive) (iv : InputValueDefinition) :
    (d.name ∉ seen → mapGet ctx.schema.directive_definitions d.name = none →
      ctx.directive (fuel + 1) seen d = some (.ok ()))
    ∧ (mapGet ctx.schema.types iv.ty.inner_named_type = none →
      ctx.input_value (fuel + 1) seen iv = ctx.directives fuel seen iv.directives) := by
  constructor
  · intro h1 h2
    simp [FindRecursiveDirective.directive, h1, h2]
  · intro h
    rw [FindRecursiveDirective.input_value]
    cases hd : ctx.directives fuel seen iv.directives with
    | none => simp [h]
    | some r =>
      cases r with
      | ok u => cases u; simp [h]
      | error e => simp [h]

/-- Closed instantiation of `C10_unresolved_names_skipped` at a schema with
empty maps. -/
theorem C10_witness :
    (FindRecursiveDirective.directive ⟨⟨[], []⟩, 5⟩ 1 ["r"] ⟨"ghost", none, [], none⟩
      = some (.ok ()))
    ∧ (FindRecursiveDirective.input_value ⟨⟨[], []⟩, 5⟩ 1 ["r"]
        ⟨"x", .named "Ghost", none, [], none⟩
      = FindRecursiveDirective.directives ⟨⟨[], []⟩, 5⟩ 0 ["r"] []) := by
  constructor
  · exact (C10_unresolved_names_skipped ⟨⟨[], []⟩, 5⟩ 0 ["r"] ⟨"ghost", none, [], none⟩
      ⟨"x", .named "Ghost", none, [], none⟩).1 (by decide) (by decide)
  · exact (C10_unresolved_names_skipped ⟨⟨[], []⟩, 5⟩ 0 ["r"] ⟨"ghost", none, [], none⟩
      ⟨"x", .named "Ghost", none, [], none⟩).2 (by decide)

/- Dependency graph of directive definitions, following the spec's words:
argument types, those types' attached directives, enum-value directives,
and input-object field types. -/

mutual

/-- Application `d` is encountered when walking input value `iv`: it is
attached to the input value itself, or reachable through the input
value's named type. -/
inductive DirInIV : Schema → InputValueDefinition → Directive → Prop where
  | direct {s : Schema} {iv : InputValueDefinition} {d : Directive} :
      d ∈ iv.directives → DirInIV s iv d
  | viaType {s : Schema} {iv : InputValueDefinition} {td : ExtendedType} {d : Directive} :
      mapGet s.types iv.ty.inner_named_type = some td → DirInTD s td d → DirInIV s iv d

/-- Application `d` is encountered when walking type definition `td`:
attached to the type, to one of its enum values, or reachable through one
of its input-object fields. -/
inductive DirInTD : Schema → ExtendedType → Directive → Prop where
  | scalar {s ds d} : d ∈ ds → DirInTD s (.scalar ds) d
  | object {s ds d} : d ∈ ds → DirInTD s (.object ds) d
  | interface {s ds d} : d ∈ ds → DirInTD s (.interface ds) d
  | union {s ds d} : d ∈ ds → DirInTD s (.union ds) d
  | enumDirs {s ds vs d} : d ∈ ds → DirInTD s (.enum ds vs) d
  | enumValue {s ds vs d} {v : EnumValueDefinition} :
      v ∈ vs → d ∈ v.directives → DirInTD s (.enum ds vs) d
  | inputDirs {s ds fs d} : d ∈ ds → DirInTD s (.inputObject ds fs) d
  | inputField {s ds fs d} {f : InputValueDefinition} :
      f ∈ fs → DirInIV s f d → DirInTD s (.inputObject ds fs) d

end

/-- The directive-definition dependency graph: an edge from `a` to `b`
when some application of `b` is encountered while walking the argument
definitions of `a`'s definition. -/
def Edge (s : Schema) (a b : Name) : Prop :=
  ∃ defn iv d, mapGet s.directive_definitions a = some defn ∧
    iv ∈ defn.arguments ∧ DirInIV s iv d ∧ d.name = b

/-- The dependency graph has no directed cycle. -/
def Acyclic (s : Schema) : Prop := ∀ a, ¬ Relation.TransGen (Edge s) a a

/-- Each pending application's name is an edge-successor of the name whose
definition the walk is currently inside (the path's last name). -/
def EdgeFromLast (s : Schema) (seen : List Name) (b : Name) : Prop :=
  ∀ last, seen.getLast? = some last → Edge s last b

/-- A chain of edges along a list reaches from its head to its last
element. -/
theorem chain_reflTransGen {R : Name → Name → Prop} :
    ∀ (l : List Name) (a b : Name), List.Chain' R (a :: l) →
      (a :: l).getLast? = some b → Relation.ReflTransGen R a b := by
  intro l
  induction l with
  | nil =>
    intro a b _ hlast
    simp at hlast
    subst hlast
    exact Relation.ReflTransGen.refl
  | cons c t ih =>
    intro a b hchain hlast
    have h1 : R a c := (List.chain'_cons.mp hchain).1
    have h2 : List.Chain' R (c :: t) := (List.chain'_cons.mp hchain).2
    have h3 : (c :: t).getLast? = some b := by
      simpa using hlast
    exact Relation.ReflTransGen.head h1 (ih c b h2 h3)

/-- Core invariant argument for the cycle search on acyclic graphs: along
any path of edges whose last name's definition is the one being walked,
no function of the search can return `Recursed`. -/
theorem recursed_free_aux (s : Schema) (limit : Nat) (hacy : Acyclic s) : ∀ fuel : Nat,
    (∀ seen td, seen ≠ [] → List.Chain' (Edge s) seen →
      (∀ d, DirInTD s td d → EdgeFromLast s seen d.name) →
      ∀ t, FindRecursiveDirective.type_definition ⟨s, limit⟩ fuel seen td ≠
        some (.error (.Recursed t)))
    ∧ (∀ seen fs, seen ≠ [] → List.Chain' (Edge s) seen →
      (∀ f ∈ fs, ∀ d, DirInIV s f d → EdgeFromLast s seen d.name) →
      ∀ t, FindRecursiveDirective.input_values ⟨s, limit⟩ fuel seen fs ≠
        some (.error (.Recursed t)))
    ∧ (∀ seen iv, seen ≠ [] → List.Chain' (Edge s) seen →
      (∀ d, DirInIV s iv d → EdgeFromLast s seen d.name) →
      ∀ t, FindRecursiveDirective.input_value ⟨s, limit⟩ fuel seen iv ≠
        some (.error (.Recursed t)))
    ∧ (∀ seen vs, seen ≠ [] → List.Chain' (Edge s) seen →
      (∀ v ∈ vs, ∀ d ∈ EnumValueDefinition.directives v, EdgeFromLast s seen d.name) →
      ∀ t, FindRecursiveDirective.enum_values ⟨s, limit⟩ fuel seen vs ≠
        some (.error (.Recursed t)))
    ∧ (∀ seen v, seen ≠ [] → List.Chain' (Edge s) seen →
      (∀ d ∈ EnumValueDefinition.directives v, EdgeFromLast s seen d.name) →
      ∀ t, FindRecursiveDirective.enum_value ⟨s, limit⟩ fuel seen v ≠
        some (.error (.Recursed t)))
    ∧ (∀ seen ds, seen ≠ [] → List.Chain' (Edge s) seen →
      (∀ d ∈ ds, EdgeFromLast s seen d.name) →
      ∀ t, FindRecursiveDirective.directives ⟨s, limit⟩ fuel seen ds ≠
        some (.error (.Recursed t)))
    ∧ (∀ seen d, seen ≠ [] → List.Chain' (Edge s) seen →
      EdgeFromLast s seen d.name →
      ∀ t, FindRecursiveDirective.directive ⟨s, limit⟩ fuel seen d ≠
        some (.error (.Recursed t)))
    ∧ (∀ seen defn, seen ≠ [] → List.Chain' (Edge s) seen →
      (∀ last, seen.getLast? = some last → mapGet s.directive_definitions last = some defn) →
      ∀ t, FindRecursiveDirective.directive_definition ⟨s, limit⟩ fuel seen defn ≠
        some (.error (.Recursed t))) := by
  intro fuel
  induction fuel with
  | zero =>
    refine ⟨?_, ?_, ?_, ?_, ?_, ?_, ?_, ?_⟩ <;> intros seen x _ _ _ t h <;>
      simp [FindRecursiveDirective.type_definition, FindRecursiveDirective.input_values,
        FindRecursiveDirective.input_value, FindRecursiveDirective.enum_values,
        FindRecursiveDirective.enum_value, FindRecursiveDirective.directives,
        FindRecursiveDirective.directive, FindRecursiveDirective.directive_definition] at h
  | succ n ih =>
    obtain ⟨ih_td, ih_ivs, ih_iv, ih_evs, ih_ev, ih_ds, ih_d, ih_dd⟩ := ih
    refine ⟨?_, ?_, ?_, ?_, ?_, ?_, ?_, ?_⟩
    -- type_definition
    · intro seen td hne hch hyp t h
      cases td with
      | scalar ds =>
        simp only [FindRecursiveDirective.type_definition] at h
        exact ih_ds seen ds hne hch (fun d hd => hyp d (.scalar hd)) t h
      | object ds =>
        simp only [FindRecursiveDirective.type_definition] at h
        exact ih_ds seen ds hne hch (fun d hd => hyp d (.object hd)) t h
      | interface ds =>
        simp only [FindRecursiveDirective.type_definition] at h
        exact ih_ds seen ds hne hch (fun d hd => hyp d (.interface hd)) t h
      | union ds =>
        simp only [FindRecursiveDirective.type_definition] at h
        exact ih_ds seen ds hne hch (fun d hd => hyp d (.union hd)) t h
      | enum ds vs =>
        cases hds : FindRecursiveDirective.directives ⟨s, limit⟩ n seen ds with
        | none => simp [FindRecursiveDirective.type_definition, hds] at h
        | some r =>
          cases r with
          | ok u =>
            cases u
            simp only [FindRecursiveDirective.type_definition, hds] at h
            exact ih_evs seen vs hne hch (fun v hv d hd => hyp d (.enumValue hv hd)) t h
          | error e =>
            cases e with
            | Limit => simp [FindRecursiveDirective.type_definition, hds] at h
            | Recursed t0 =>
              exact ih_ds seen ds hne hch (fun d hd => hyp d (.enumDirs hd)) t0 hds
      | inputObject ds fs =>
        cases hds : FindRecursiveDirective.directives ⟨s, limit⟩ n seen ds with
        | none => simp [FindRecursiveDirective.type_definition, hds] at h
        | some r =>
          cases r with
          | ok u =>
            cases u
            simp only [FindRecursiveDirective.type_definition, hds] at h
            exact ih_ivs seen fs hne hch (fun f hf d hd => hyp d (.inputField hf hd)) t h
          | error e =>
            cases e with
            | Limit => simp [FindRecursiveDirective.type_definition, hds] at h
            | Recursed t0 =>
              exact ih_ds seen ds hne hch (fun d hd => hyp d (.inputDirs hd)) t0 hds
    -- input_values
    · intro seen fs hne hch hyp t h
      cases fs with
      | nil => simp [FindRecursiveDirective.input_values] at h
      | cons f rest =>
        cases hf : FindRecursiveDirective.input_value ⟨s, limit⟩ n seen f with
        | none => simp [FindRecursiveDirective.input_values, hf] at h
        | some r =>
          cases r with
          | ok u =>
            cases u
            simp only [FindRecursiveDirective.input_values, hf] at h
            exact ih_ivs seen rest hne hch
              (fun g hg d hd => hyp g (List.mem_cons_of_mem f hg) d hd) t h
          | error e =>
            cases e with
            | Limit => simp [FindRecursiveDirective.input_values, hf] at h
            | Recursed t0 =>
              exact ih_iv seen f hne hch (fun d hd => hyp f (List.mem_cons_self _ _) d hd) t0 hf
    -- input_value
    · intro seen iv hne hch hyp t h
      cases hds : FindRecursiveDirective.directives ⟨s, limit⟩ n seen iv.directives with
      | none => simp [FindRecursiveDirective.input_value, hds] at h
      | some r =>
        cases r with
        | ok u =>
          cases u
          cases htd : mapGet s.types iv.ty.inner_named_type with
          | none => simp [FindRecursiveDirective.input_value, hds, htd] at h
          | some td =>
            simp only [FindRecursiveDirective.input_value, hds, htd] at h
            exact ih_td seen td hne hch (fun d hd => hyp d (.viaType htd hd)) t h
        | error e =>
          cases e with
          | Limit => simp [FindRecursiveDirective.input_value, hds] at h
          | Recursed t0 =>
            exact ih_ds seen iv.directives hne hch (fun d hd => hyp d (.direct hd)) t0 hds
    -- enum_values
    · intro seen vs hne hch hyp t h
      cases vs with
      | nil => simp [FindRecursiveDirective.enum_values] at h
      | cons v rest =>
        cases hv : FindRecursiveDirective.enum_value ⟨s, limit⟩ n seen v with
        | none => simp [FindRecursiveDirective.enum_values, hv] at h
        | some r =>
          cases r with
          | ok u =>
            cases u
            simp only [FindRecursiveDirective.enum_values, hv] at h
            exact ih_evs seen rest hne hch
              (fun w hw d hd => hyp w (List.mem_cons_of_mem v hw) d hd) t h
          | error e =>
            cases e with
            | Limit => simp [FindRecursiveDirective.enum_values, hv] at h
            | Recursed t0 =>
              exact ih_ev seen v hne hch (fun d hd => hyp v (List.mem_cons_self _ _) d hd) t0 hv
    -- enum_value
    · intro seen v hne hch hyp t h
      simp only [FindRecursiveDirective.enum_value] at h
      exact ih_ds seen v.directives hne hch hyp t h
    -- directives
    · intro seen ds hne hch hyp t h
      cases ds with
      | nil => simp [FindRecursiveDirective.directives] at h
      | cons d rest =>
        cases hd : FindRecursiveDirective.directive ⟨s, limit⟩ n seen d with
        | none => simp [FindRecursiveDirective.directives, hd] at h
        | some r =>
          cases r with
          | ok u =>
            cases u
            simp only [FindRecursiveDirective.directives, hd] at h
            exact ih_ds seen rest hne hch
              (fun e he => hyp e (List.mem_cons_of_mem d he)) t h
          | error e =>
            cases e with
            | Limit => simp [FindRecursiveDirective.directives, hd] at h
            | Recursed t0 =>
              exact ih_d seen d hne hch (hyp d (List.mem_cons_self _ _)) t0 hd
    -- directive
    · intro seen d hne hch hyp t h
      by_cases hmem : d.name ∈ seen
      · by_cases hhd : seen.head? = some d.name
        · cases seen with
          | nil => exact hne rfl
          | cons a l =>
            have ha : a = d.name := by simpa using hhd
            obtain ⟨last, hlast⟩ := Option.isSome_iff_exists.mp
              (List.getLast?_isSome.mpr (by simp : (a :: l) ≠ []))
            have hreach : Relation.ReflTransGen (Edge s) a last :=
              chain_reflTransGen l a last hch hlast
            have hedge : Edge s last d.name := hyp last hlast
            exact absurd (Relation.TransGen.tail' hreach (ha ▸ hedge)) (ha ▸ hacy d.name)
        · simp [FindRecursiveDirective.directive, hmem, hhd] at h
      · cases hlk : mapGet s.directive_definitions d.name with
        | none => simp [FindRecursiveDirective.directive, hmem, hlk] at h
        | some defn =>
          cases hpush : RecursionGuard.push limit seen d.name with
          | none => simp [FindRecursiveDirective.directive, hmem, hlk, hpush] at h
          | some seen2 =>
            have hseen2 : seen2 = seen ++ [d.name] := by
              unfold RecursionGuard.push at hpush
              by_cases hlen : seen.length + 1 > limit
              · simp [hlen] at hpush
              · simp [hlen] at hpush
                exact hpush.symm
            cases hdd2 : FindRecursiveDirective.directive_definition ⟨s, limit⟩ n seen2 defn with
            | none => simp [FindRecursiveDirective.directive, hmem, hlk, hpush, hdd2] at h
            | some r =>
              cases r with
              | ok u =>
                cases u
                simp [FindRecursiveDirective.directive, hmem, hlk, hpush, hdd2] at h
              | error e =>
                cases e with
                | Limit =>
                  simp [FindRecursiveDirective.directive, hmem, hlk, hpush, hdd2,
                    CycleError.trace] at h
                | Recursed t0 =>
                  subst hseen2
                  refine absurd hdd2 (ih_dd (seen ++ [d.name]) defn (by simp) ?_ ?_ t0)
                  · rw [List.chain'_append]
                    refine ⟨hch, List.chain'_singleton _, ?_⟩
                    intro x hx y hy
                    simp at hy
                    subst hy
                    exact hyp x hx
                  · intro last hlast
                    rw [List.getLast?_concat] at hlast
                    cases hlast
                    exact hlk
    -- directive_definition
    · intro seen defn hne hch hdef t h
      simp only [FindRecursiveDirective.directive_definition] at h
      exact ih_ivs seen defn.arguments hne hch
        (fun f hf d hd last hl => ⟨defn, f, d, hdef last hl, hf, hd, rfl⟩) t h

/-- C2 (amended): over a schema whose directive-definition dependency
graph is acyclic, the cycle search never returns `Recursed` for any
definition stored in the schema — no false cycle report.  (It need not
return success: a sufficiently deep acyclic chain returns the depth-limit
error instead, see the counterexample.) -/
theorem C2_acyclic_never_recursed (s : Schema) (limit fuel : Nat)
    (defn : DirectiveDefinition) (hacy : Acyclic s)
    (hdef : mapGet s.directive_definitions defn.name = some defn) (t : List Directive) :
    FindRecursiveDirective.check s limit fuel defn ≠ some (.error (.Recursed t)) := by
  intro h
  unfold FindRecursiveDirective.check at h
  exact (recursed_free_aux s limit hacy fuel).2.2.2.2.2.2.2 [defn.name] defn
    (by simp) (List.chain'_singleton _)
    (fun last hlast => by simp at hlast; subst hlast; exact hdef) t h

/-- Schema for the closed instantiation of the amended C2: one directive
definition `w` with no arguments, so the dependency graph has no edges. -/
def c2wDef : DirectiveDefinition := ⟨"w", none, [], false, [], none⟩

/-- The one-definition schema around `c2wDef`. -/
def c2wSchema : Schema := ⟨[], [("w", c2wDef)]⟩

/-- The dependency graph of `c2wSchema` has no edges: its only definition
has no arguments. -/
theorem c2w_no_edge (a b : Name) : ¬ Edge c2wSchema a b := by
  rintro ⟨defn, iv, d, hl, hiv, -, -⟩
  by_cases ha : "w" = a
  · subst ha
    simp [c2wSchema, mapGet] at hl
    subst hl
    simp [c2wDef] at hiv
  · simp [c2wSchema, mapGet, ha] at hl

/-- Closed instantiation of `C2_acyclic_never_recursed` on `c2wSchema`. -/
theorem C2_witness :
    Acyclic c2wSchema ∧
    mapGet c2wSchema.directive_definitions "w" = some c2wDef ∧
    FindRecursiveDirective.check c2wSchema 3 10 c2wDef ≠ some (.error (.Recursed [])) := by
  have hacy : Acyclic c2wSchema := by
    have hstep : ∀ x y, ¬ Relation.TransGen (Edge c2wSchema) x y := by
      intro x y h
      induction h with
      | single he => exact c2w_no_edge _ _ he
      | tail hxy he ih => exact ih
    exact fun a h => hstep a a h
  exact ⟨hacy, by decide,
    C2_acyclic_never_recursed c2wSchema 3 10 c2wDef hacy (by decide) []⟩

/-- The single application of `b` sitting on type `Ta` in the C2
counterexample schema. -/
def c2App : Directive := ⟨"b", none, [], none⟩

/-- Counterexample definition `a`: one argument of type `Ta`. -/
def c2DefA : DirectiveDefinition :=
  ⟨"a", none, [⟨"x", .named "Ta", none, [], none⟩], false, [], none⟩

/-- Counterexample definition `b`: no arguments. -/
def c2DefB : DirectiveDefinition := ⟨"b", none, [], false, [], none⟩

/-- The acyclic two-definition chain `a → b`: `a`'s argument type `Ta`
carries one application of `b`, and `b` depends on nothing. -/
def c2Schema : Schema := ⟨[("Ta", .scalar [c2App])], [("a", c2DefA), ("b", c2DefB)]⟩

/-- The only edge of `c2Schema`'s dependency graph is `a → b`. -/
theorem c2_edge_characterization (x y : Name) (h : Edge c2Schema x y) :
    x = "a" ∧ y = "b" := by
  obtain ⟨defn, iv, d, hl, hiv, hdir, hname⟩ := h
  by_cases hx : "a" = x
  · subst hx
    refine ⟨rfl, ?_⟩
    simp [c2Schema, mapGet] at hl
    subst hl
    simp [c2DefA] at hiv
    subst hiv
    cases hdir with
    | direct hd => simp at hd
    | viaType htd hdt =>
      simp [c2Schema, mapGet, Ty.inner_named_type] at htd
      subst htd
      cases hdt with
      | scalar hd =>
        simp at hd
        subst hd
        simpa [c2App] using hname.symm
  · by_cases hx2 : "b" = x
    · subst hx2
      simp [c2Schema, mapGet] at hl
      subst hl
      simp [c2DefB] at hiv
    · simp [c2Schema, mapGet, hx, hx2] at hl

/-- The dependency graph of `c2Schema` is acyclic. -/
theorem c2_acyclic : Acyclic c2Schema := by
  intro a htg
  have hstep : ∀ x y, Relation.TransGen (Edge c2Schema) x y → x = "a" ∧ y = "b" := by
    intro x y h
    induction h with
    | single he => exact c2_edge_characterization _ _ he
    | tail hxy he ih =>
      obtain ⟨hb1, -⟩ := c2_edge_characterization _ _ he
      rw [ih.2] at hb1
      exact absurd hb1 (by decide)
  obtain ⟨h1, h2⟩ := hstep a a htg
  rw [h1] at h2
  exact absurd h2 (by decide)

/-- C2 counterexample: on the acyclic schema `c2Schema` with depth bound 1,
`check` on the stored definition `a` returns the depth-limit error, not
success — refuting the claim that an acyclic graph always yields `Ok`. -/
theorem C2_counterexample :
    Acyclic c2Schema ∧
    mapGet c2Schema.directive_definitions "a" = some c2DefA ∧
    FindRecursiveDirective.check c2Schema 1 20 c2DefA = some (.error .Limit) ∧
    FindRecursiveDirective.check c2Schema 1 20 c2DefA ≠ some (.ok ()) :=
  ⟨c2_acyclic, by decide, by decide, by decide⟩

/-- One field of the deep input-object chain: plain named type, no
directives, no default. -/
def chainField (t : Name) : InputValueDefinition := ⟨"f", .named t, none, [], none⟩

/-- The deep input-object chain: each listed name is an input object whose
single field references the next name; the last field references the
out-of-schema name `end`. -/
def chainTypes : List Name → List (Name × ExtendedType)
  | [] => []
  | n :: rest => (n, .inputObject [] [chainField (rest.headD "end")]) :: chainTypes rest

/-- The directive definition under test: one argument typed by the head of
the chain. -/
def chainRoot (names : List Name) : DirectiveDefinition :=
  ⟨"deep", none, [⟨"x", .named (names.headD "end"), none, [], none⟩], false, [], none⟩

/-- A schema holding the chain and the definition under test. -/
def chainSchema (names : List Name) : Schema :=
  ⟨chainTypes names, [("deep", chainRoot names)]⟩

/-- A name outside the chain resolves to nothing in the chain's type map. -/
theorem chainTypes_not_mem (l : List Name) (k : Name) (h : k ∉ l) :
    mapGet (chainTypes l) k = none := by
  induction l with
  | nil => rfl
  | cons n rest ih =>
    have hnk : ¬ (n = k) := fun he => h (List.mem_cons.mpr (Or.inl he.symm))
    simp only [chainTypes, mapGet, if_neg hnk]
    exact ih (fun hk => h (List.mem_cons_of_mem n hk))

/-- Looking up a chain name skips the earlier part of the chain and finds
its input object. -/
theorem chainTypes_get (pre : List Name) (n : Name) (rest : List Name) (h : n ∉ pre) :
    mapGet (chainTypes (pre ++ n :: rest)) n =
      some (.inputObject [] [chainField (rest.headD "end")]) := by
  induction pre with
  | nil => simp [chainTypes, mapGet]
  | cons p ps ih =>
    have hpn : ¬ (p = n) := fun he => h (List.mem_cons.mpr (Or.inl he.symm))
    simp only [List.cons_append, chainTypes, mapGet, if_neg hpn]
    exact ih (fun hk => h (List.mem_cons_of_mem p hk))

/-- One unit of fuel settles an empty directive list. -/
theorem directives_nil (ctx : FindRecursiveDirective) (fuel : Nat) (seen : List Name)
    (h : 1 ≤ fuel) : ctx.directives fuel seen [] = some (.ok ()) := by
  obtain ⟨F, rfl⟩ : ∃ F, fuel = F + 1 := ⟨fuel - 1, by omega⟩
  simp [FindRecursiveDirective.directives]

/-- One unit of fuel settles an empty input-value list. -/
theorem input_values_nil (ctx : FindRecursiveDirective) (fuel : Nat) (seen : List Name)
    (h : 1 ≤ fuel) : ctx.input_values fuel seen [] = some (.ok ()) := by
  obtain ⟨F, rfl⟩ : ∃ F, fuel = F + 1 := ⟨fuel - 1, by omega⟩
  simp [FindRecursiveDirective.input_values]

/-- Descending a directive-free input value typed by the head of the
remaining chain suffix succeeds with linear fuel, for any recursion path
and any depth bound: the chain never touches the recursion guard. -/
theorem chain_descend (all : List Name) (hnd : all.Nodup) (hend : "end" ∉ all)
    (limit : Nat) :
    ∀ (suf : List Name), ∀ (pre : List Name), all = pre ++ suf →
    ∀ (fuel : Nat), 4 * suf.length + 2 ≤ fuel →
    ∀ (seen : List Name) (iv : InputValueDefinition),
      iv.directives = [] → iv.ty = .named (suf.headD "end") →
      FindRecursiveDirective.input_value ⟨chainSchema all, limit⟩ fuel seen iv =
        some (.ok ()) := by
  intro suf
  induction suf with
  | nil =>
    intro pre hall fuel hfuel seen iv hdirs hty
    obtain ⟨F, rfl⟩ : ∃ F, fuel = F + 1 := ⟨fuel - 1, by omega⟩
    have h1 : FindRecursiveDirective.directives ⟨chainSchema all, limit⟩ F seen
        iv.directives = some (.ok ()) := by
      rw [hdirs]
      exact directives_nil _ _ _ (by omega)
    have h2 : mapGet (chainSchema all).types iv.ty.inner_named_type = none := by
      rw [hty]
      simp only [List.headD, Ty.inner_named_type, chainSchema]
      exact chainTypes_not_mem all "end" hend
    simp only [FindRecursiveDirective.input_value, h1, h2]
  | cons n rest ih =>
    intro pre hall fuel hfuel seen iv hdirs hty
    simp only [List.length_cons] at hfuel
    obtain ⟨F2, rfl⟩ : ∃ F2, fuel = F2 + 1 + 1 + 1 := ⟨fuel - 3, by omega⟩
    have hnpre : n ∉ pre := by
      intro hmem
      exact List.disjoint_of_nodup_append (hall ▸ hnd) hmem (List.mem_cons_self n rest)
    have h1 : FindRecursiveDirective.directives ⟨chainSchema all, limit⟩ (F2 + 1 + 1) seen
        iv.directives = some (.ok ()) := by
      rw [hdirs]
      exact directives_nil _ _ _ (by omega)
    have h2 : mapGet (chainSchema all).types iv.ty.inner_named_type =
        some (.inputObject [] [chainField (rest.headD "end")]) := by
      rw [hty]
      simp only [List.headD_cons, Ty.inner_named_type, chainSchema]
      rw [hall]
      exact chainTypes_get pre n rest hnpre
    have h3 : FindRecursiveDirective.directives ⟨chainSchema all, limit⟩ (F2 + 1) seen []
        = some (.ok ()) := directives_nil _ _ _ (by omega)
    have h4 : FindRecursiveDirective.input_value ⟨chainSchema all, limit⟩ F2 seen
        (chainField (rest.headD "end")) = some (.ok ()) :=
      ih (pre ++ [n]) (by simp [hall]) F2 (by omega) seen _ rfl rfl
    have h5 : FindRecursiveDirective.input_values ⟨chainSchema all, limit⟩ F2 seen []
        = some (.ok ()) := input_values_nil _ _ _ (by omega)
    have h6 : FindRecursiveDirective.input_values ⟨chainSchema all, limit⟩ (F2 + 1) seen
        [chainField (rest.headD "end")] = some (.ok ()) := by
      simp only [FindRecursiveDirective.input_values, h4, h5]
    have h7 : FindRecursiveDirective.type_definition ⟨chainSchema all, limit⟩ (F2 + 1 + 1)
        seen (.inputObject [] [chainField (rest.headD "end")]) = some (.ok ()) := by
      simp only [FindRecursiveDirective.type_definition, h3, h6]
    simp only [FindRecursiveDirective.input_value, h1, h2, h7]

/-- C5 (amended): validating a directive definition over a deeply nested
but acyclic input-object chain — of any depth, in particular at least
twice the configured depth bound — terminates and yields NO diagnostic:
the recursion guard tracks only directive-definition descents, so pure
input-object nesting never trips the depth limit. -/
theorem C5_deep_acyclic_chain_no_diagnostic (limit : Nat) (names : List Name)
    (hnd : names.Nodup) (hend : "end" ∉ names) :
    ∃ fuel, validate_directive_definition noExt (chainSchema names) limit fuel
      (chainRoot names) [] = some [] := by
  refine ⟨4 * names.length + 2 + 1 + 1, ?_⟩
  have h4 : FindRecursiveDirective.input_value ⟨chainSchema names, limit⟩
      (4 * names.length + 2) ["deep"]
      ⟨"x", .named (names.headD "end"), none, [], none⟩ = some (.ok ()) :=
    chain_descend names hnd hend limit names [] rfl _ (by omega) _ _ rfl rfl
  have h5 : FindRecursiveDirective.input_values ⟨chainSchema names, limit⟩
      (4 * names.length + 2) ["deep"] [] = some (.ok ()) :=
    input_values_nil _ _ _ (by omega)
  have h6 : FindRecursiveDirective.check (chainSchema names) limit
      (4 * names.length + 2 + 1 + 1) (chainRoot names) = some (.ok ()) := by
    unfold FindRecursiveDirective.check
    simp only [FindRecursiveDirective.directive_definition, FindRecursiveDirective.input_values,
      chainRoot, h4, h5]
  simp [validate_directive_definition, h6, noExt]

/-- Closed instantiation of `C5_deep_acyclic_chain_no_diagnostic` on the
five-deep chain with depth bound 2. -/
theorem C5_witness :
    (["In0", "In1", "In2", "In3", "In4"] : List Name).Nodup ∧
    "end" ∉ (["In0", "In1", "In2", "In3", "In4"] : List Name) ∧
    ∃ fuel, validate_directive_definition noExt
      (chainSchema ["In0", "In1", "In2", "In3", "In4"]) 2 fuel
      (chainRoot ["In0", "In1", "In2", "In3", "In4"]) [] = some [] :=
  ⟨by decide, by decide,
    C5_deep_acyclic_chain_no_diagnostic 2 ["In0", "In1", "In2", "In3", "In4"]
      (by decide) (by decide)⟩

/-- C5 counterexample: the five-deep acyclic input-object chain with depth
bound 2 (nesting ≥ 2× the bound) yields NO diagnostic at all — in
particular no deeply-nested-type diagnostic, refuting the claim. -/
theorem C5_counterexample :
    (["In0", "In1", "In2", "In3", "In4"] : List Name).length = 5 ∧ 2 * 2 ≤ 5 ∧
    validate_directive_definition noExt (chainSchema ["In0", "In1", "In2", "In3", "In4"])
      2 200 (chainRoot ["In0", "In1", "In2", "In3", "In4"]) [] = some [] :=
  ⟨by decide, by decide, by decide⟩

/-- A filter over a list all of whose elements fail the predicate is
empty. -/
theorem filter_eq_nil_of {α : Type} (p : α → Bool) (l : List α)
    (h : ∀ a ∈ l, p a = false) : l.filter p = [] := by
  induction l with
  | nil => rfl
  | cons a t ih =>
    have ha := h a (List.mem_cons_self _ _)
    rw [List.filter_cons]
    simp only [ha, Bool.false_eq_true, if_false]
    exact ih (fun b hb => h b (List.mem_cons_of_mem a hb))

/-- Evaluating `validate_directives` on a single application with a known
definition: the external argument diagnostics followed by the
definition-dependent checks. -/
theorem validate_directives_single (ext : Externals) (schema : Schema)
    (dd : DirectiveDefinition) (dir : Directive) (dir_loc : DirectiveLocation)
    (var_defs : List VariableDefinition)
    (hdd : mapGet schema.directive_definitions dir.name = some dd) :
    validate_directives ext (some schema) [dir] dir_loc var_defs =
      ext.validate_arguments dir.arguments ++
        validate_known_directive ext schema dd dir dir_loc var_defs dir.loc := by
  simp [validate_directives, validate_directives_go, validate_one_directive, hdd, mapGet]

/-- With silent collaborators, a supplied argument contributes nothing
when it matches an argument definition, and exactly its
undefined-argument diagnostic when it does not. -/
theorem mem_supplied_flatMap_noExt (s : Schema) (dd : DirectiveDefinition)
    (vd : List VariableDefinition) (dn : Name) (loc : Option Span)
    (args : List Argument) (x : Diagnostic)
    (hx : x ∈ args.flatMap (validate_supplied_argument noExt s dd vd dn loc)) :
    ∃ a ∈ args, dd.arguments.find? (fun val => val.name == a.name) = none ∧
      x = ⟨a.loc, .UndefinedArgument a.name dn loc⟩ := by
  obtain ⟨a, ha, hxa⟩ := List.mem_flatMap.mp hx
  cases hfind : dd.arguments.find? (fun val => val.name == a.name) with
  | some iv => simp [validate_supplied_argument, hfind, noExt] at hxa
  | none =>
    simp only [validate_supplied_argument, hfind, List.mem_singleton] at hxa
    exact ⟨a, ha, hfind, hxa⟩

/-- Every diagnostic of the per-defined-argument loop is a
required-argument diagnostic for one of the definition's arguments. -/
theorem mem_defined_flatMap (dd : DirectiveDefinition) (dir : Directive)
    (args : List InputValueDefinition) (x : Diagnostic)
    (hx : x ∈ args.flatMap (validate_defined_argument dd dir)) :
    ∃ ad ∈ args,
      x = ⟨dir.loc, .RequiredArgument ad.name ad.ty (dd.name, ad.name) ad.loc⟩ := by
  obtain ⟨ad, had, hxa⟩ := List.mem_flatMap.mp hx
  simp only [validate_defined_argument] at hxa
  split at hxa
  · simp only [List.mem_singleton] at hxa
    exact ⟨ad, had, hxa⟩
  · simp at hxa

/-- With silent collaborators, the definition-dependent checks emit no
duplicate-directive diagnostic. -/
theorem known_noExt_no_unique (s : Schema) (dd : DirectiveDefinition) (dir : Directive)
    (dl : DirectiveLocation) (vd : List VariableDefinition) (loc : Option Span) :
    (validate_known_directive noExt s dd dir dl vd loc).filter
      Diagnostic.isUniqueDirective = [] := by
  apply filter_eq_nil_of
  intro x hx
  unfold validate_known_directive at hx
  rcases List.mem_append.mp hx with hx1 | hx2
  · rcases List.mem_append.mp hx1 with hx0 | hxs
    · split at hx0
      · simp only [List.mem_singleton] at hx0
        subst hx0
        simp [Diagnostic.isUniqueDirective]
      · simp at hx0
    · obtain ⟨a, -, -, rfl⟩ := mem_supplied_flatMap_noExt s dd vd dir.name loc _ x hxs
      simp [Diagnostic.isUniqueDirective]
  · obtain ⟨ad, -, rfl⟩ := mem_defined_flatMap dd dir _ x hx2
    simp [Diagnostic.isUniqueDirective]

/-- The silent collaborators append no argument diagnostics. -/
theorem noExt_arguments (a : List Argument) : noExt.validate_arguments a = [] := rfl

/-- C6: within one application list, a repeated non-repeatable directive
yields exactly one duplicate diagnostic, located at the second occurrence
and carrying the first occurrence's recorded span; a repeated repeatable
directive yields none; a repeated directive with no known definition is
assumed repeatable and yields none. -/
theorem C6_duplicate_directives (schema : Schema) (d1 d2 : Directive)
    (dir_loc : DirectiveLocation) (var_defs : List VariableDefinition)
    (hname : d1.name = d2.name) :
    (∀ dd, mapGet schema.directive_definitions d2.name = some dd →
      dd.repeatable = false →
      (validate_directives noExt (some schema) [d1, d2] dir_loc var_defs).filter
        Diagnostic.isUniqueDirective =
        [⟨d2.loc, .UniqueDirective d2.name (SourceSpan.recompose d1.loc d1.name_loc)⟩])
    ∧ (∀ dd, mapGet schema.directive_definitions d2.name = some dd →
      dd.repeatable = true →
      (validate_directives noExt (some schema) [d1, d2] dir_loc var_defs).filter
        Diagnostic.isUniqueDirective = [])
    ∧ (mapGet schema.directive_definitions d2.name = none →
      (validate_directives noExt (some schema) [d1, d2] dir_loc var_defs).filter
        Diagnostic.isUniqueDirective = []) := by
  refine ⟨fun dd hdd hrep => ?_, fun dd hdd hrep => ?_, fun hdd => ?_⟩
  · simp [validate_directives, validate_directives_go, validate_one_directive, hname,
      mapGet, hdd, hrep, noExt_arguments, List.filter_append, known_noExt_no_unique,
      Diagnostic.isUniqueDirective, List.filter_cons]
  · simp [validate_directives, validate_directives_go, validate_one_directive, hname,
      mapGet, hdd, hrep, noExt_arguments, List.filter_append, known_noExt_no_unique,
      Diagnostic.isUniqueDirective, List.filter_cons]
  · simp [validate_directives, validate_directives_go, validate_one_directive, hname,
      mapGet, hdd, noExt_arguments, List.filter_append, known_noExt_no_unique,
      Diagnostic.isUniqueDirective, List.filter_cons]

/-- The non-repeatable definition used by the closed C6 instantiation. -/
def c6Once : DirectiveDefinition := ⟨"once", none, [], false, ["FIELD"], none⟩

/-- The repeatable definition used by the closed C6 instantiation. -/
def c6Rep : DirectiveDefinition := ⟨"rep", none, [], true, ["FIELD"], none⟩

/-- Schema for the closed C6 instantiation. -/
def c6Schema : Schema := ⟨[], [("once", c6Once), ("rep", c6Rep)]⟩

/-- Closed instantiation of `C6_duplicate_directives`: `@once @once` gives
one duplicate diagnostic at the second application, `@rep @rep` and the
unknown `@ghost @ghost` give none. -/
theorem C6_witness :
    ((validate_directives noExt (some c6Schema)
        [⟨"once", some 1, [], some 1⟩, ⟨"once", some 2, [], some 2⟩] "FIELD" []).filter
      Diagnostic.isUniqueDirective = [⟨some 2, .UniqueDirective "once" (some 1)⟩])
    ∧ ((validate_directives noExt (some c6Schema)
        [⟨"rep", some 3, [], some 3⟩, ⟨"rep", some 4, [], some 4⟩] "FIELD" []).filter
      Diagnostic.isUniqueDirective = [])
    ∧ ((validate_directives noExt (some c6Schema)
        [⟨"ghost", some 5, [], some 5⟩, ⟨"ghost", some 6, [], some 6⟩] "FIELD" []).filter
      Diagnostic.isUniqueDirective = []) := by
  refine ⟨?_, ?_, ?_⟩
  · have h := (C6_duplicate_directives c6Schema ⟨"once", some 1, [], some 1⟩
      ⟨"once", some 2, [], some 2⟩ "FIELD" [] rfl).1 c6Once (by decide) (by decide)
    simpa [SourceSpan.recompose] using h
  · exact (C6_duplicate_directives c6Schema ⟨"rep", some 3, [], some 3⟩
      ⟨"rep", some 4, [], some 4⟩ "FIELD" [] rfl).2.1 c6Rep (by decide) (by decide)
  · exact (C6_duplicate_directives c6Schema ⟨"ghost", some 5, [], some 5⟩
      ⟨"ghost", some 6, [], some 6⟩ "FIELD" [] rfl).2.2 (by decide)

/-- The per-defined-argument loop, filtered to one (directive, argument)
coordinate, keeps exactly the contributions of the argument definitions
bearing that argument name. -/
theorem filter_required_flatMap (dd : DirectiveDefinition) (dir : Directive) (aname : Name) :
    ∀ args : List InputValueDefinition,
    ((args.flatMap (validate_defined_argument dd dir)).filter
      (Diagnostic.isRequiredArgumentFor dd.name aname)) =
    ((args.filter (fun a => a.name == aname)).flatMap
      (validate_defined_argument dd dir)) := by
  intro args
  induction args with
  | nil => rfl
  | cons ad t ih =>
    rw [List.flatMap_cons, List.filter_append, ih, List.filter_cons]
    by_cases hn : (ad.name == aname) = true
    · rw [if_pos hn, List.flatMap_cons]
      congr 1
      simp only [validate_defined_argument]
      split
      · simp [Diagnostic.isRequiredArgumentFor, List.filter_cons, hn]
      · rfl
    · rw [if_neg hn]
      have hz : ((validate_defined_argument dd dir ad).filter
          (Diagnostic.isRequiredArgumentFor dd.name aname)) = [] := by
        simp only [validate_defined_argument]
        split
        · simp [Diagnostic.isRequiredArgumentFor, List.filter_cons, hn]
        · rfl
      rw [hz, List.nil_append]

/-- With silent collaborators, filtering the definition-dependent checks
to one required-argument coordinate leaves exactly the
per-defined-argument contributions for that argument name. -/
theorem known_noExt_filter_required (s : Schema) (dd : DirectiveDefinition)
    (dir : Directive) (dl : DirectiveLocation) (vd : List VariableDefinition)
    (loc : Option Span) (aname : Name) :
    (validate_known_directive noExt s dd dir dl vd loc).filter
      (Diagnostic.isRequiredArgumentFor dd.name aname) =
      ((dd.arguments.filter (fun a => a.name == aname)).flatMap
        (validate_defined_argument dd dir)) := by
  unfold validate_known_directive
  rw [List.filter_append, List.filter_append]
  have h1 : ((if !(dd.locations.contains dl) then
      [(⟨loc, .UnsupportedLocation dir.name dl dd.locations dd.loc⟩ : Diagnostic)]
      else []).filter (Diagnostic.isRequiredArgumentFor dd.name aname)) = [] := by
    split <;> simp [Diagnostic.isRequiredArgumentFor, List.filter_cons]
  have h2 : ((dir.arguments.flatMap
      (validate_supplied_argument noExt s dd vd dir.name loc)).filter
      (Diagnostic.isRequiredArgumentFor dd.name aname)) = [] := by
    apply filter_eq_nil_of
    intro x hx
    obtain ⟨a, -, -, rfl⟩ := mem_supplied_flatMap_noExt s dd vd dir.name loc _ x hx
    simp [Diagnostic.isRequiredArgumentFor]
  rw [h1, h2, filter_required_flatMap]
  simp

/-- C7: for a required argument definition of a known directive
definition, omitting the argument or supplying it as the literal `null`
yields exactly one missing-required-argument diagnostic for that
coordinate, while supplying it as a variable reference yields none,
whatever the enclosing variable definitions declare. -/
theorem C7_required_argument_presence (schema : Schema) (dd : DirectiveDefinition)
    (dir : Directive) (arg_def : InputValueDefinition) (dir_loc : DirectiveLocation)
    (var_defs : List VariableDefinition)
    (hdd : mapGet schema.directive_definitions dir.name = some dd)
    (huniq : dd.arguments.filter (fun a => a.name == arg_def.name) = [arg_def])
    (hreq : arg_def.is_required = true) :
    (dir.arguments.findSome?
        (fun arg => if arg.name == arg_def.name then some arg.value else none) = none →
      (validate_directives noExt (some schema) [dir] dir_loc var_defs).filter
        (Diagnostic.isRequiredArgumentFor dd.name arg_def.name) =
        [⟨dir.loc, .RequiredArgument arg_def.name arg_def.ty (dd.name, arg_def.name)
          arg_def.loc⟩])
    ∧ (dir.arguments.findSome?
        (fun arg => if arg.name == arg_def.name then some arg.value else none) =
          some .null →
      (validate_directives noExt (some schema) [dir] dir_loc var_defs).filter
        (Diagnostic.isRequiredArgumentFor dd.name arg_def.name) =
        [⟨dir.loc, .RequiredArgument arg_def.name arg_def.ty (dd.name, arg_def.name)
          arg_def.loc⟩])
    ∧ (∀ v, dir.arguments.findSome?
        (fun arg => if arg.name == arg_def.name then some arg.value else none) =
          some (.variable v) →
      (validate_directives noExt (some schema) [dir] dir_loc var_defs).filter
        (Diagnostic.isRequiredArgumentFor dd.name arg_def.name) = []) := by
  have hbase : (validate_directives noExt (some schema) [dir] dir_loc var_defs).filter
      (Diagnostic.isRequiredArgumentFor dd.name arg_def.name) =
      validate_defined_argument dd dir arg_def := by
    rw [validate_directives_single noExt schema dd dir dir_loc var_defs hdd,
      noExt_arguments, List.nil_append, known_noExt_filter_required, huniq]
    simp [List.flatMap_cons]
  refine ⟨fun hfind => ?_, fun hfind => ?_, fun v hfind => ?_⟩ <;> rw [hbase] <;>
    simp only [validate_defined_argument, hfind] <;>
    simp [hreq, Value.is_null]

/-- The required `Int!` argument used by the closed C7 instantiation. -/
def c7ArgDef : InputValueDefinition := ⟨"x", .nonNull (.named "Int"), none, [], some 9⟩

/-- The definition used by the closed C7 instantiation. -/
def c7Def : DirectiveDefinition := ⟨"needsArg", none, [c7ArgDef], false, ["FIELD"], some 8⟩

/-- Schema for the closed C7 instantiation. -/
def c7Schema : Schema := ⟨[], [("needsArg", c7Def)]⟩

/-- Closed instantiation of `C7_required_argument_presence` on
`@needsArg`, `@needsArg(x: null)` and `@needsArg(x: $v)`. -/
theorem C7_witness :
    ((validate_directives noExt (some c7Schema) [⟨"needsArg", some 1, [], some 1⟩]
        "FIELD" []).filter (Diagnostic.isRequiredArgumentFor "needsArg" "x") =
      [⟨some 1, .RequiredArgument "x" (.nonNull (.named "Int")) ("needsArg", "x") (some 9)⟩])
    ∧ ((validate_directives noExt (some c7Schema)
        [⟨"needsArg", some 2, [⟨"x", .null, some 3⟩], some 2⟩] "FIELD" []).filter
        (Diagnostic.isRequiredArgumentFor "needsArg" "x") =
      [⟨some 2, .RequiredArgument "x" (.nonNull (.named "Int")) ("needsArg", "x") (some 9)⟩])
    ∧ ((validate_directives noExt (some c7Schema)
        [⟨"needsArg", some 4, [⟨"x", .variable "v", some 5⟩], some 4⟩] "FIELD" []).filter
        (Diagnostic.isRequiredArgumentFor "needsArg" "x") = []) := by
  refine ⟨?_, ?_, ?_⟩
  · have h := (C7_required_argument_presence c7Schema c7Def ⟨"needsArg", some 1, [], some 1⟩
      c7ArgDef "FIELD" [] (by decide) (by decide) (by decide)).1 (by decide)
    simpa [c7Def, c7ArgDef] using h
  · have h := (C7_required_argument_presence c7Schema c7Def
      ⟨"needsArg", some 2, [⟨"x", .null, some 3⟩], some 2⟩
      c7ArgDef "FIELD" [] (by decide) (by decide) (by decide)).2.1 (by decide)
    simpa [c7Def, c7ArgDef] using h
  · have h := (C7_required_argument_presence c7Schema c7Def
      ⟨"needsArg", some 4, [⟨"x", .variable "v", some 5⟩], some 4⟩
      c7ArgDef "FIELD" [] (by decide) (by decide) (by decide)).2.2 "v" (by decide)
    simpa [c7Def, c7ArgDef] using h

/-- With failing variable-usage validation, a supplied argument
contributes exactly what it contributes with silent collaborators: the
value validator is never consulted. -/
theorem supplied_probeFail_eq_noExt (s : Schema) (dd : DirectiveDefinition)
    (vd : List VariableDefinition) (dn : Name) (loc : Option Span) :
    validate_supplied_argument extProbeFail s dd vd dn loc =
      validate_supplied_argument noExt s dd vd dn loc := by
  funext a
  cases hfind : dd.arguments.find? (fun val => val.name == a.name) <;>
    simp [validate_supplied_argument, hfind, extProbeFail, noExt]

/-- C8: a supplied argument matching no argument definition always yields
its undefined-argument diagnostic, whatever its value; and
value-against-declared-type validation runs exactly when variable-usage
validation succeeds — the probe marker emitted by the value validator
appears in the output when usage validation succeeds on a matched
argument, and never appears when usage validation fails. -/
theorem C8_supplied_argument_checks (schema : Schema) (dd : DirectiveDefinition)
    (dir : Directive) (dir_loc : DirectiveLocation) (var_defs : List VariableDefinition)
    (hdd : mapGet schema.directive_definitions dir.name = some dd) :
    (∀ a ∈ dir.arguments,
      dd.arguments.find? (fun val => val.name == a.name) = none →
      (⟨a.loc, .UndefinedArgument a.name dir.name dir.loc⟩ : Diagnostic) ∈
        validate_directives noExt (some schema) [dir] dir_loc var_defs)
    ∧ ((∃ a ∈ dir.arguments, ∃ iv,
        dd.arguments.find? (fun val => val.name == a.name) = some iv) →
      probeDiag ∈ validate_directives extProbeOk (some schema) [dir] dir_loc var_defs)
    ∧ probeDiag ∉ validate_directives extProbeFail (some schema) [dir] dir_loc var_defs := by
  refine ⟨fun a ha hfind => ?_, fun ⟨a, ha, iv, hfind⟩ => ?_, fun hmem => ?_⟩
  · rw [validate_directives_single noExt schema dd dir dir_loc var_defs hdd,
      noExt_arguments, List.nil_append]
    unfold validate_known_directive
    refine List.mem_append_left _ (List.mem_append_right _ ?_)
    exact List.mem_flatMap.mpr ⟨a, ha, by simp [validate_supplied_argument, hfind]⟩
  · rw [validate_directives_single extProbeOk schema dd dir dir_loc var_defs hdd]
    have hargs : extProbeOk.validate_arguments dir.arguments = [] := rfl
    rw [hargs, List.nil_append]
    unfold validate_known_directive
    refine List.mem_append_left _ (List.mem_append_right _ ?_)
    exact List.mem_flatMap.mpr
      ⟨a, ha, by simp [validate_supplied_argument, hfind, extProbeOk]⟩
  · rw [validate_directives_single extProbeFail schema dd dir dir_loc var_defs hdd] at hmem
    have hargs : extProbeFail.validate_arguments dir.arguments = [] := rfl
    rw [hargs, List.nil_append] at hmem
    unfold validate_known_directive at hmem
    rcases List.mem_append.mp hmem with h1 | h2
    · rcases List.mem_append.mp h1 with h0 | hs
      · split at h0
        · simp [probeDiag] at h0
        · simp at h0
      · rw [supplied_probeFail_eq_noExt] at hs
        obtain ⟨a, -, -, heq⟩ :=
          mem_supplied_flatMap_noExt schema dd var_defs dir.name dir.loc _ _ hs
        simp [probeDiag] at heq
    · obtain ⟨ad, -, heq⟩ := mem_defined_flatMap dd dir _ _ h2
      simp [probeDiag] at heq

/-- The one-argument definition used by the closed C8 instantiation. -/
def c8Def : DirectiveDefinition :=
  ⟨"dir", none, [⟨"x", .named "Int", none, [], some 9⟩], false, [], none⟩

/-- Schema for the closed C8 instantiation. -/
def c8Schema : Schema := ⟨[], [("dir", c8Def)]⟩

/-- The application used by the closed C8 instantiation: one undefined
argument `y` and one matched argument `x`. -/
def c8App : Directive :=
  ⟨"dir", some 1, [⟨"y", .lit "1", some 2⟩, ⟨"x", .lit "2", some 3⟩], some 1⟩

/-- Closed instantiation of `C8_supplied_argument_checks`. -/
theorem C8_witness :
    ((⟨some 2, .UndefinedArgument "y" "dir" (some 1)⟩ : Diagnostic) ∈
      validate_directives noExt (some c8Schema) [c8App] "FIELD" [])
    ∧ probeDiag ∈ validate_directives extProbeOk (some c8Schema) [c8App] "FIELD" []
    ∧ probeDiag ∉ validate_directives extProbeFail (some c8Schema) [c8App] "FIELD" [] := by
  obtain ⟨h1, h2, h3⟩ :=
    C8_supplied_argument_checks c8Schema c8Def c8App "FIELD" [] (by decide)
  refine ⟨?_, h2 ⟨⟨"x", .lit "2", some 3⟩, by decide,
    ⟨"x", .named "Int", none, [], some 9⟩, by decide⟩, h3⟩
  have h := h1 ⟨"y", .lit "1", some 2⟩ (by decide) (by decide)
  simpa [c8App] using h

/-- C9: a known directive applied at a location outside its definition's
allowed-locations set yields exactly one unsupported-location diagnostic
carrying the name, the attempted location, the full valid-location set
and the definition's source location; at an allowed location it yields
none. -/
theorem C9_unsupported_location (schema : Schema) (dd : DirectiveDefinition)
    (dir : Directive) (dir_loc : DirectiveLocation) (var_defs : List VariableDefinition)
    (hdd : mapGet schema.directive_definitions dir.name = some dd) :
    (dd.locations.contains dir_loc = false →
      (validate_directives noExt (some schema) [dir] dir_loc var_defs).filter
        Diagnostic.isUnsupportedLocation =
        [⟨dir.loc, .UnsupportedLocation dir.name dir_loc dd.locations dd.loc⟩])
    ∧ (dd.locations.contains dir_loc = true →
      (validate_directives noExt (some schema) [dir] dir_loc var_defs).filter
        Diagnostic.isUnsupportedLocation = []) := by
  have h2 : ((dir.arguments.flatMap
      (validate_supplied_argument noExt schema dd var_defs dir.name dir.loc)).filter
      Diagnostic.isUnsupportedLocation) = [] := by
    apply filter_eq_nil_of
    intro x hx
    obtain ⟨a, -, -, rfl⟩ :=
      mem_supplied_flatMap_noExt schema dd var_defs dir.name dir.loc _ x hx
    simp [Diagnostic.isUnsupportedLocation]
  have h3 : ((dd.arguments.flatMap (validate_defined_argument dd dir)).filter
      Diagnostic.isUnsupportedLocation) = [] := by
    apply filter_eq_nil_of
    intro x hx
    obtain ⟨ad, -, rfl⟩ := mem_defined_flatMap dd dir _ x hx
    simp [Diagnostic.isUnsupportedLocation]
  constructor <;> intro hc <;> replace hc := (by simpa using hc : _) <;>
    rw [validate_directives_single noExt schema dd dir dir_loc var_defs hdd,
      noExt_arguments, List.nil_append] <;>
    unfold validate_known_directive <;>
    rw [List.filter_append, List.filter_append, h2, h3] <;>
    simp [hc, Diagnostic.isUnsupportedLocation, List.filter_cons]

/-- The object-only definition used by the closed C9 instantiation. -/
def c9Def : DirectiveDefinition := ⟨"known", none, [], false, ["OBJECT"], some 8⟩

/-- Schema for the closed C9 instantiation. -/
def c9Schema : Schema := ⟨[], [("known", c9Def)]⟩

/-- Closed instantiation of `C9_unsupported_location`: `@known` on a field
yields one unsupported-location diagnostic listing `OBJECT`; on an object
it yields none. -/
theorem C9_witness :
    ((validate_directives noExt (some c9Schema) [⟨"known", some 1, [], some 1⟩]
        "FIELD" []).filter Diagnostic.isUnsupportedLocation =
      [⟨some 1, .UnsupportedLocation "known" "FIELD" ["OBJECT"] (some 8)⟩])
    ∧ ((validate_directives noExt (some c9Schema) [⟨"known", some 2, [], some 2⟩]
        "OBJECT" []).filter Diagnostic.isUnsupportedLocation = []) := by
  constructor
  · have h := (C9_unsupported_location c9Schema c9Def ⟨"known", some 1, [], some 1⟩
      "FIELD" [] (by decide)).1 (by decide)
    simpa [c9Def] using h
  · exact (C9_unsupported_location c9Schema c9Def ⟨"known", some 2, [], some 2⟩
      "OBJECT" [] (by decide)).2 (by decide)
